import Mathlib

/-!
Verification development for a Rust arithmetic-expression evaluator
(tokenizer in `parsemath/tokenizer.rs`, parser in `parsemath/parser.rs`,
AST and evaluator in `parsemath/ast.rs`).

The Rust code is shallowly embedded:

* `f64` values are modelled by `FVal`: an exact rational together with the
  three non-finite IEEE values `inf`, `neginf` and `nan`.  Finite arithmetic
  is exact rational arithmetic with overflow to the infinities at magnitude
  `2^1024` (the IEEE binade boundary above the largest finite double);
  rounding of in-range finite results, signed zeros and underflow to zero
  are not modelled — no statement in this file depends on them.
  Comparisons follow IEEE semantics (`nan` compares false to everything).
* Numeric literals are modelled as exact rationals (the conversion of a
  decimal literal to the nearest `f64` is the identity in the model).
* Fallible Rust code returning `Result`/`Option` becomes `Except`/`Option`.
* The `Peekable<Chars>` state of the tokenizer becomes an explicit
  `List Char`; the parser state (`current_token` plus the tokenizer)
  becomes a `Token × List Char` pair, and the mutually recursive parser
  methods are given explicit fuel (the Rust original terminates because
  each recursive call consumes input; fuel is an artifact of the
  embedding and for every input a sufficiently large fuel — as supplied by
  `parseFull` — never produces `ParseError.OutOfFuel`).
* The parser methods all run on `&mut self`, so mutations performed
  before a failure persist.  The embedding therefore threads the state
  through every outcome (`PState × Except ParseError _`), and the
  tokenizer's iterator position after a failed `next()` call is tracked
  by `tokNextS` (which refines `tokNext`, see `tokNext_agrees`).  This
  is observable: the implicit-multiplication attempt that `parse_number`
  discards keeps the tokens it consumed, e.g. `"(1)2(+3"` parses to
  `Add(Number 1, Number 3)` — replayed among the examples below.
-/

set_option maxRecDepth 4096
set_option maxHeartbeats 1000000

/-- Model of an `f64` value: an exact rational, or one of the IEEE
non-finite values. -/
inductive FVal where
  | finite (q : ℚ)
  | inf
  | neginf
  | nan
deriving DecidableEq, Repr

namespace FVal

/-- Magnitude at which a finite result overflows to an infinity.
The largest finite `f64` is `2^1024 - 2^971`; round-to-nearest overflows
from `2^1024 - 2^970` upward.  The model uses the binade boundary
`2^1024`; no statement in this file evaluates arithmetic inside the sliver
between the two thresholds. -/
def overflowBound : ℚ := ((2 ^ 1024 : ℕ) : ℚ)

/-- Clamp an exact rational result to the representable range, overflowing
to the signed infinities exactly as `f64` arithmetic does. -/
def clampF (q : ℚ) : FVal :=
  if overflowBound ≤ q then .inf
  else if q ≤ -overflowBound then .neginf
  else .finite q

/-- `f64::EPSILON = 2^-52`. -/
def eps : ℚ := 1 / ((2 ^ 52 : ℕ) : ℚ)

/-- Negation (`-x`). -/
def fneg : FVal → FVal
  | .finite q => .finite (-q)
  | .inf => .neginf
  | .neginf => .inf
  | .nan => .nan

/-- IEEE addition on the model. -/
def fadd : FVal → FVal → FVal
  | .nan, _ => .nan
  | _, .nan => .nan
  | .inf, .neginf => .nan
  | .neginf, .inf => .nan
  | .inf, _ => .inf
  | _, .inf => .inf
  | .neginf, _ => .neginf
  | _, .neginf => .neginf
  | .finite p, .finite q => clampF (p + q)

/-- IEEE subtraction: `a - b = a + (-b)`. -/
def fsub (a b : FVal) : FVal := fadd a (fneg b)

/-- IEEE multiplication on the model. -/
def fmul : FVal → FVal → FVal
  | .nan, _ => .nan
  | _, .nan => .nan
  | .finite p, .finite q => clampF (p * q)
  | .inf, .inf => .inf
  | .inf, .neginf => .neginf
  | .neginf, .inf => .neginf
  | .neginf, .neginf => .inf
  | .inf, .finite q => if q = 0 then .nan else if 0 < q then .inf else .neginf
  | .finite q, .inf => if q = 0 then .nan else if 0 < q then .inf else .neginf
  | .neginf, .finite q => if q = 0 then .nan else if 0 < q then .neginf else .inf
  | .finite q, .neginf => if q = 0 then .nan else if 0 < q then .neginf else .inf

/-- IEEE division on the model (the model has no signed zero, so a zero
divisor of a nonzero finite dividend gives `+inf`/`-inf` by the dividend's
sign; the evaluator's epsilon guard keeps this case unreachable there). -/
def fdiv : FVal → FVal → FVal
  | .nan, _ => .nan
  | _, .nan => .nan
  | .finite p, .finite q =>
      if q = 0 then (if p = 0 then .nan else if 0 < p then .inf else .neginf)
      else clampF (p / q)
  | .finite _, .inf => .finite 0
  | .finite _, .neginf => .finite 0
  | .inf, .finite q => if 0 ≤ q then .inf else .neginf
  | .neginf, .finite q => if 0 ≤ q then .neginf else .inf
  | .inf, .inf => .nan
  | .inf, .neginf => .nan
  | .neginf, .inf => .nan
  | .neginf, .neginf => .nan

/-- IEEE `==` (false whenever `nan` is involved). -/
def feq : FVal → FVal → Bool
  | .finite p, .finite q => decide (p = q)
  | .inf, .inf => true
  | .neginf, .neginf => true
  | _, _ => false

/-- IEEE `<` (false whenever `nan` is involved). -/
def flt : FVal → FVal → Bool
  | .nan, _ => false
  | _, .nan => false
  | .finite p, .finite q => decide (p < q)
  | .finite _, .inf => true
  | .neginf, .finite _ => true
  | .neginf, .inf => true
  | _, _ => false

/-- IEEE `<=` (false whenever `nan` is involved). -/
def fle : FVal → FVal → Bool
  | .nan, _ => false
  | _, .nan => false
  | .finite p, .finite q => decide (p ≤ q)
  | .finite _, .inf => true
  | .neginf, _ => true
  | .inf, .inf => true
  | _, _ => false

/-- IEEE `>`. -/
def fgt (a b : FVal) : Bool := flt b a

/-- IEEE `>=`. -/
def fge (a b : FVal) : Bool := fle b a

/-- `f64::abs`. -/
def fabs : FVal → FVal
  | .finite q => .finite |q|
  | .inf => .inf
  | .neginf => .inf
  | .nan => .nan

/-- Truncation of a rational toward zero (the rounding of Rust's
`f64::trunc`). -/
def ratTrunc (q : ℚ) : ℤ :=
  if 0 ≤ q then Rat.floor q else -(Rat.floor (-q))

/-- Rust `f64::fract = self - self.trunc()`; on the infinities this is
`inf - inf = nan`. -/
def ffract : FVal → FVal
  | .finite q => .finite (q - (ratTrunc q : ℚ))
  | .inf => .nan
  | .neginf => .nan
  | .nan => .nan

/-- Is the value neither `nan` nor an infinity? -/
def isFiniteF : FVal → Bool
  | .finite _ => true
  | _ => false

/-- Rust `f64::is_infinite`. -/
def isInfiniteF : FVal → Bool
  | .inf => true
  | .neginf => true
  | _ => false

/-- `f64::powf` restricted to finite arguments, following the IEEE `pow`
special cases.  An integer exponent gives the exact rational power with
overflow to the infinities; a non-integer exponent on a negative base
gives `nan`; a non-integer exponent on a positive base gives a finite
value unless the true real power reaches the overflow bound (the finite
value itself is irrational in general and `f64::powf` returns a rounded
approximation — the model returns the exact rational root when one exists
and an unspecified stand-in `0` otherwise; no statement in this file
depends on that stand-in, only on finiteness).  See `fpowfFin` below;
`natRootF` is its bounded integer-root search. -/
def natRootF (k n : ℕ) : ℕ :=
  (List.range (n + 1)).foldl (fun acc m => if m ^ k ≤ n then m else acc) 0

/-- Exact `k`-th root of a nonnegative rational when it is rational,
otherwise the unspecified stand-in `0` (see `fpowfFin`).  `natRootF k n`
is the largest `m` with `m ^ k ≤ n`, by bounded search. -/
def qRootOrZero (r : ℚ) (k : ℕ) : ℚ :=
  let nr := natRootF k r.num.toNat
  let dr := natRootF k r.den
  if nr ^ k = r.num.toNat ∧ dr ^ k = r.den then ((nr : ℚ) / (dr : ℚ)) else 0

def fpowfFin (b e : ℚ) : FVal :=
  if e = 0 then .finite 1
  else if b = 0 then (if 0 < e then .finite 0 else .inf)
  else if b = 1 then .finite 1
  else if e.den = 1 then clampF (b ^ e.num)
  else if b < 0 then .nan
  else
    let r : ℚ := b ^ e.num
    if ((2 ^ (1024 * e.den) : ℕ) : ℚ) ≤ r then .inf
    else .finite (qRootOrZero r e.den)

/-- `f64::powf` on the model, with the IEEE `pow` special cases for the
non-finite arguments (`pow(x, 0) = 1` and `pow(1, y) = 1` hold for every
`x`/`y` including `nan`). -/
def fpowf (x y : FVal) : FVal :=
  if y = .finite 0 then .finite 1
  else if x = .finite 1 then .finite 1
  else
    match x, y with
    | .nan, _ => .nan
    | _, .nan => .nan
    | .finite b, .finite e => fpowfFin b e
    | .finite b, .inf =>
        if b = -1 then .finite 1 else if -1 < b ∧ b < 1 then .finite 0 else .inf
    | .finite b, .neginf =>
        if b = -1 then .finite 1 else if -1 < b ∧ b < 1 then .inf else .finite 0
    | .inf, .finite e => if 0 < e then .inf else .finite 0
    | .neginf, .finite e =>
        if 0 < e then (if e.den = 1 ∧ e.num % 2 ≠ 0 then .neginf else .inf)
        else .finite 0
    | .inf, .inf => .inf
    | .inf, .neginf => .finite 0
    | .neginf, .inf => .inf
    | .neginf, .neginf => .finite 0

end FVal

/-- Modelled from the spec: the repository's `src/parsemath/token.rs`
(the `Token` enum) is not present under `src/`; its variants are exactly
the ones named by `tokenizer.rs` and `parser.rs` and described in the
spec's data model (a numeric literal, the eight single-character
operators/parentheses `+ - * / ^ & | ( )`, and end-of-input). -/
inductive Token where
  | Num (v : ℚ)
  | Add
  | Subtract
  | Multiply
  | Divide
  | Caret
  | LeftParen
  | RightParen
  | And
  | Or
  | EOF
deriving DecidableEq, Repr

/-- Modelled from the spec: `OperPrec` lives in the missing `token.rs`.
Variant names are those used by `parser.rs`.  The order (`toNat`
below, mirroring Rust's derived `PartialOrd`, i.e. declaration order) puts
`Negative` above `Power`, following the spec's §4.2 "binds tighter than
any binary operator" and §9; the repository's own unit tests corroborate
this (`-4^0.5` must parse as `Caret(Negative(4), 0.5)` to fail as
`test_caret` requires, and `-2^3` must evaluate to `-8`), whereas the
listing in spec §3 (which places `Negative` below `Power`) would make
`-4^0.5` evaluate successfully to `-2`, contradicting those tests. -/
inductive OperPrec where
  | DefaultZero
  | AndOr
  | AddSub
  | MulDiv
  | Power
  | Negative
deriving DecidableEq, Repr

/-- Declaration-order rank of a precedence level. -/
def OperPrec.toNat : OperPrec → ℕ
  | .DefaultZero => 0
  | .AndOr => 1
  | .AddSub => 2
  | .MulDiv => 3
  | .Power => 4
  | .Negative => 5

/-- The strict order on precedences (Rust's derived `PartialOrd` compares
by declaration order). -/
def precLt (a b : OperPrec) : Bool := decide (a.toNat < b.toNat)

/-- Modelled from the spec: `get_oper_prec` lives in the missing
`token.rs`.  Each binary-operator token maps to exactly one precedence
level (named after it); every non-operator token maps to the lowest level
so it always terminates expression growth (spec §3). -/
def Token.get_oper_prec : Token → OperPrec
  | .Add => .AddSub
  | .Subtract => .AddSub
  | .Multiply => .MulDiv
  | .Divide => .MulDiv
  | .Caret => .Power
  | .And => .AndOr
  | .Or => .AndOr
  | _ => .DefaultZero

/-! ## Tokenizer (`src/parsemath/tokenizer.rs`) -/

/-- Rust `char::is_ascii_whitespace`: space, tab, line feed, form feed,
carriage return. -/
def isWS (c : Char) : Bool :=
  c = ' ' || c = '\t' || c = '\n' || c = '\x0C' || c = '\r'

/-- The digit-scanning loop inside `Tokenizer::next` (`tokenizer.rs`
lines 44–61): extend the buffer with further digits, allow at most one
decimal point (a second one aborts the whole call with no token), and
skip ASCII whitespace inside the literal.  Returns the final buffer and
the unconsumed rest, or `none` on a second decimal point. -/
def scanNum : List Char → List Char → Bool → Option (List Char × List Char)
  | [], buf, _ => some (buf, [])
  | c :: cs, buf, hasDecimal =>
    if c.isDigit then scanNum cs (buf ++ [c]) hasDecimal
    else if c = '.' then
      (if hasDecimal then none else scanNum cs (buf ++ [c]) true)
    else if isWS c then scanNum cs buf hasDecimal
    else some (buf, c :: cs)

/-- Numeric value of a digit buffer with at most one `'.'`, as produced by
`scanNum` — the model of `buffer.parse::<f64>()`, which always succeeds on
such buffers (the rounding of the exact decimal value to the nearest `f64`
is the identity in the model). -/
def ratOfBuffer (buf : List Char) : ℚ :=
  let intPart := buf.takeWhile (· ≠ '.')
  let fracPart := (buf.dropWhile (· ≠ '.')).drop 1
  let digitsToNat : List Char → ℕ :=
    fun ds => ds.foldl (fun acc c => acc * 10 + (c.toNat - '0'.toNat)) 0
  (digitsToNat (intPart ++ fracPart) : ℚ) / (10 : ℚ) ^ fracPart.length

/-- `Tokenizer::next` (`tokenizer.rs` lines 31–76) on the explicit
remaining-characters state: skip leading whitespace, then dispatch on the
next character.  `none` models the iterator yielding no item (invalid
character or malformed literal); note that an exhausted character stream
yields `some (EOF, [])` — on every call. -/
def tokNext : List Char → Option (Token × List Char)
  | [] => some (Token.EOF, [])
  | c :: cs =>
    if isWS c then tokNext cs
    else if c.isDigit then
      match scanNum cs [c] false with
      | none => none
      | some (buf, rest) => some (Token.Num (ratOfBuffer buf), rest)
    else if c = '&' then some (Token.And, cs)
    else if c = '|' then some (Token.Or, cs)
    else if c = '+' then some (Token.Add, cs)
    else if c = '-' then some (Token.Subtract, cs)
    else if c = '*' then some (Token.Multiply, cs)
    else if c = '/' then some (Token.Divide, cs)
    else if c = '^' then some (Token.Caret, cs)
    else if c = '(' then some (Token.LeftParen, cs)
    else if c = ')' then some (Token.RightParen, cs)
    else none

/-- `scanNum` refined with the iterator position when the scan fails:
on a second decimal point Rust returns `None` having only *peeked* the
offending `'.'` (it is not consumed), so the failing scan leaves
`'.' :: rest` in the stream.  Agreement with `scanNum` on the token
outcome is proved in `scanNum_agrees`. -/
def scanNumS : List Char → List Char → Bool → Option (List Char) × List Char
  | [], buf, _ => (some buf, [])
  | c :: cs, buf, hasDecimal =>
    if c.isDigit then scanNumS cs (buf ++ [c]) hasDecimal
    else if c = '.' then
      (if hasDecimal then (none, c :: cs) else scanNumS cs (buf ++ [c]) true)
    else if isWS c then scanNumS cs buf hasDecimal
    else (some buf, c :: cs)

/-- `Tokenizer::next` refined with the iterator position after the call
even when no token is produced: the Rust iterator has by then consumed
the skipped whitespace and (for an invalid character) the offending
character itself — `self.expr.next()` ran before the dispatch — while a
malformed literal stops at the peeked second `'.'`.  This matters to the
parser: after a discarded implicit-multiplication attempt (`parser.rs`
lines 100–103) parsing continues from this advanced position.  Agreement
with `tokNext` on the token outcome is proved in `tokNext_agrees`. -/
def tokNextS : List Char → Option Token × List Char
  | [] => (some Token.EOF, [])
  | c :: cs =>
    if isWS c then tokNextS cs
    else if c.isDigit then
      match scanNumS cs [c] false with
      | (none, rest) => (none, rest)
      | (some buf, rest) => (some (Token.Num (ratOfBuffer buf)), rest)
    else if c = '&' then (some Token.And, cs)
    else if c = '|' then (some Token.Or, cs)
    else if c = '+' then (some Token.Add, cs)
    else if c = '-' then (some Token.Subtract, cs)
    else if c = '*' then (some Token.Multiply, cs)
    else if c = '/' then (some Token.Divide, cs)
    else if c = '^' then (some Token.Caret, cs)
    else if c = '(' then (some Token.LeftParen, cs)
    else if c = ')' then (some Token.RightParen, cs)
    else (none, cs)

/-! ## AST and evaluator (`src/parsemath/ast.rs`) -/

/-- The AST node type (`ast.rs` lines 10–22).  In Rust the `Number`
payload is an `f64`; the parser only ever stores tokenizer output there,
which the model keeps as an exact rational (a non-finite literal would
require a decimal literal of several hundred digits). -/
inductive Node where
  | And (a b : Node)
  | Or (a b : Node)
  | Add (a b : Node)
  | Subtract (a b : Node)
  | Multiply (a b : Node)
  | Divide (a b : Node)
  | Caret (a b : Node)
  | Negative (a : Node)
  | Number (v : ℚ)
deriving DecidableEq, Repr

/-- Is an `Except` result an error? -/
def isErrE {ε α : Type} : Except ε α → Bool
  | .error _ => true
  | .ok _ => false

/-- `a AND (NOT b)` on natural numbers: since the set bits of
`Nat.land a b` are a subset of those of `a`, it equals
`a - Nat.land a b`. -/
def natDiffBits (a b : ℕ) : ℕ := a - Nat.land a b

/-- Bitwise AND on mathematical integers in two's complement — the value
computed by Rust's `i64` `&` for operands/results within the `i64` range
(a negative integer `-(n+1)` has the bit pattern `NOT n`). -/
def intLand (m n : ℤ) : ℤ :=
  match m, n with
  | .ofNat a, .ofNat b => .ofNat (Nat.land a b)
  | .ofNat a, .negSucc b => .ofNat (natDiffBits a b)
  | .negSucc a, .ofNat b => .ofNat (natDiffBits b a)
  | .negSucc a, .negSucc b => .negSucc (Nat.lor a b)

/-- Bitwise OR on mathematical integers in two's complement — the value
computed by Rust's `i64` `|` for operands/results within the `i64` range. -/
def intLor (m n : ℤ) : ℤ :=
  match m, n with
  | .ofNat a, .ofNat b => .ofNat (Nat.lor a b)
  | .ofNat a, .negSucc b => .negSucc (natDiffBits b a)
  | .negSucc a, .ofNat b => .negSucc (natDiffBits a b)
  | .negSucc a, .negSucc b => .negSucc (Nat.land a b)

/-- Rust's `f64 as i64` cast: saturating (`nan` goes to `0`, values beyond
the `i64` range clamp to `i64::MIN`/`i64::MAX`), truncating toward zero
otherwise. -/
def castI64 : FVal → ℤ
  | .nan => 0
  | .inf => ((2 ^ 63 : ℕ) : ℤ) - 1
  | .neginf => -((2 ^ 63 : ℕ) : ℤ)
  | .finite q =>
      if q < -((2 ^ 63 : ℕ) : ℚ) then -((2 ^ 63 : ℕ) : ℤ)
      else if (((2 ^ 63 : ℕ) : ℚ) - 1) < q then ((2 ^ 63 : ℕ) : ℤ) - 1
      else FVal.ratTrunc q

/-- Rust's `i64 as f64` cast: exact below `2^53`, round-to-nearest-even to
53 significant bits above. -/
def roundIntToF64 (z : ℤ) : ℚ :=
  let a := z.natAbs
  if a ≤ 2 ^ 53 then (z : ℚ)
  else
    let e := Nat.log2 a
    let shift := e - 52
    let m := a / 2 ^ shift
    let rem := a % 2 ^ shift
    let half := 2 ^ (shift - 1)
    let mr := if half < rem ∨ (rem = half ∧ m % 2 = 1) then m + 1 else m
    let v : ℚ := (mr : ℚ) * (2 : ℚ) ^ shift
    if z < 0 then -v else v

/-- `i64::MIN as f64 = -(2^63)` (exact). -/
def i64MinF : ℚ := -((2 ^ 63 : ℕ) : ℚ)

/-- `i64::MAX as f64 = 2^63` (`2^63 - 1` is not representable and rounds
up — so the evaluator's range guard admits `2^63`). -/
def i64MaxF : ℚ := ((2 ^ 63 : ℕ) : ℚ)

/-- The `Caret` arm of `eval` (`ast.rs` lines 41–59), after both operands
have been evaluated. -/
def caretOp (base pw : FVal) : Except String FVal :=
  if FVal.feq base (.finite 0) && FVal.flt pw (.finite 0) then
    .error "0^negative is undefined"
  else if FVal.flt base (.finite 0)
      && FVal.fgt (FVal.fabs (FVal.ffract pw)) (.finite FVal.eps) then
    .error "Negative base with fractional exponent"
  else
    let res := FVal.fpowf base pw
    if FVal.isInfiniteF res then .error "Overflow in exponentiation"
    else .ok res

/-- The guard of the `And`/`Or` arms of `eval` (`ast.rs` lines 63–67 and
78–82) applied to one operand: zero fractional part and within
`[i64::MIN as f64, i64::MAX as f64]`. -/
def i64Guard (v : FVal) : Bool :=
  FVal.feq (FVal.ffract v) (.finite 0)
    && FVal.fge v (.finite i64MinF)
    && FVal.fle v (.finite i64MaxF)

/-- The `And` arm of `eval` (`ast.rs` lines 60–74), after both operands
have been evaluated. -/
def andOp (l r : FVal) : Except String FVal :=
  if i64Guard l && i64Guard r then
    .ok (.finite (roundIntToF64 (intLand (castI64 l) (castI64 r))))
  else .error "Cannot perform bitwise AND with the following expressions"

/-- The `Or` arm of `eval` (`ast.rs` lines 75–88), after both operands
have been evaluated. -/
def orOp (l r : FVal) : Except String FVal :=
  if i64Guard l && i64Guard r then
    .ok (.finite (roundIntToF64 (intLor (castI64 l) (castI64 r))))
  else .error "Cannot perform bitwise OR with the following expressions"

/-- `eval` (`ast.rs` lines 25–90).  Operand evaluation order and the
short-circuit structure follow the source: `Divide` evaluates the
denominator first and tests it against `f64::EPSILON` before touching the
numerator. -/
def eval : Node → Except String FVal
  | .Number i => .ok (.finite i)
  | .Negative e =>
      match eval e with
      | .error m => .error m
      | .ok v => .ok (FVal.fneg v)
  | .Add a b =>
      match eval a with
      | .error m => .error m
      | .ok x =>
        match eval b with
        | .error m => .error m
        | .ok y => .ok (FVal.fadd x y)
  | .Subtract a b =>
      match eval a with
      | .error m => .error m
      | .ok x =>
        match eval b with
        | .error m => .error m
        | .ok y => .ok (FVal.fsub x y)
  | .Multiply a b =>
      match eval a with
      | .error m => .error m
      | .ok x =>
        match eval b with
        | .error m => .error m
        | .ok y => .ok (FVal.fmul x y)
  | .Divide a b =>
      match eval b with
      | .error m => .error m
      | .ok denom =>
        if FVal.flt (FVal.fabs denom) (.finite FVal.eps) then
          .error "Division by zero"
        else
          match eval a with
          | .error m => .error m
          | .ok num => .ok (FVal.fdiv num denom)
  | .Caret a b =>
      match eval a with
      | .error m => .error m
      | .ok base =>
        match eval b with
        | .error m => .error m
        | .ok pw => caretOp base pw
  | .And a b =>
      match eval a with
      | .error m => .error m
      | .ok l =>
        match eval b with
        | .error m => .error m
        | .ok r => andOp l r
  | .Or a b =>
      match eval a with
      | .error m => .error m
      | .ok l =>
        match eval b with
        | .error m => .error m
        | .ok r => orOp l r

/-! ## Parser (`src/parsemath/parser.rs`) -/

/-- `ParseError` (`parser.rs` lines 169–173).  The formatted payloads of
`InvalidOperator` produced by `check_paren` and `convert_token_to_node`
are abstracted to fixed strings; the payloads asserted by any claim
(`"Unable to parse"`, `"Invalid character"`) are kept verbatim.
`OutOfFuel` is an artifact of the embedding (see the module comment) and
is never produced for the fuel supplied by `parseFull`. -/
inductive ParseError where
  | UnableToParse (s : String)
  | InvalidOperator (s : String)
  | OutOfFuel
deriving DecidableEq, Repr

/-- The parser state: `current_token` plus the tokenizer's remaining
characters (`parser.rs` lines 13–16). -/
abbrev PState := Token × List Char

/-- `Parser::get_next_token` (`parser.rs` lines 48–55): pull one token;
a tokenizer `None` (invalid character / malformed literal) becomes
`InvalidOperator("Invalid character")`.  All parser operations thread the
state explicitly, modelling `&mut self`: a failing call still returns the
state it mutated.  Here, on failure `current_token` is unchanged (the
assignment in the Rust source happens after the match) while the
tokenizer has advanced to the position `tokNextS` reports. -/
def get_next_token (st : PState) : PState × Except ParseError Unit :=
  match tokNextS st.2 with
  | (none, r) => ((st.1, r), .error (.InvalidOperator "Invalid character"))
  | (some t, r) => ((t, r), .ok ())

/-- `Parser::check_paren` (`parser.rs` lines 110–120): require the
current token to equal the expected one and consume it (no mutation on
the mismatch error). -/
def check_paren (expected : Token) (st : PState) :
    PState × Except ParseError Unit :=
  if expected = st.1 then get_next_token st
  else (st, .error (.InvalidOperator "Expected a different token"))

mutual

/-- `Parser::generate_ast` (`parser.rs` lines 58–69): parse a primary
expression, then extend it by the operator loop (`gaLoop`).  Like every
parser operation below, it returns the mutated state alongside the
result — also on errors, as `&mut self` does. -/
def generate_ast : ℕ → OperPrec → PState → PState × Except ParseError Node
  | 0, _, st => (st, .error .OutOfFuel)
  | fuel + 1, operPrec, st =>
    match parse_number fuel st with
    | (st1, .error e) => (st1, .error e)
    | (st1, .ok left) => gaLoop fuel operPrec left st1

/-- The `while oper_prec < self.current_token.get_oper_prec()` loop body
of `generate_ast` (`parser.rs` lines 61–67), with its early `break` on
end-of-input. -/
def gaLoop : ℕ → OperPrec → Node → PState → PState × Except ParseError Node
  | 0, _, _, st => (st, .error .OutOfFuel)
  | fuel + 1, operPrec, left, st =>
    if precLt operPrec st.1.get_oper_prec then
      if st.1 = Token.EOF then (st, .ok left)
      else
        match convert_token_to_node fuel left st with
        | (st2, .error e) => (st2, .error e)
        | (st2, .ok left2) => gaLoop fuel operPrec left2 st2
    else (st, .ok left)

/-- `Parser::parse_number` (`parser.rs` lines 72–107): the primary parser
— unary minus at `Negative` precedence, a numeric literal with implicit
multiplication before `(`, or a parenthesized group (with implicit
multiplication by a following primary unless the next token is `-`).  In
the parenthesized case a failed implicit-multiplication attempt is
discarded but its state mutations persist — the Rust call runs on
`&mut self`, so tokens consumed by the failed attempt stay consumed —
hence the discard arm continues from the attempt state `st4`, not from
`st3`. -/
def parse_number : ℕ → PState → PState × Except ParseError Node
  | 0, st => (st, .error .OutOfFuel)
  | fuel + 1, st =>
    match st.1 with
    | Token.Subtract =>
      (match get_next_token st with
       | (st1, .error e) => (st1, .error e)
       | (st1, .ok _) =>
         match generate_ast fuel .Negative st1 with
         | (st2, .error e) => (st2, .error e)
         | (st2, .ok expr) => (st2, .ok (.Negative expr)))
    | Token.Num i =>
      (match get_next_token st with
       | (st1, .error e) => (st1, .error e)
       | (st1, .ok _) =>
         if st1.1 = Token.LeftParen then
           match parse_number fuel st1 with
           | (st2, .error e) => (st2, .error e)
           | (st2, .ok rightExpr) => (st2, .ok (.Multiply (.Number i) rightExpr))
         else (st1, .ok (.Number i)))
    | Token.LeftParen =>
      (match get_next_token st with
       | (st1, .error e) => (st1, .error e)
       | (st1, .ok _) =>
         match generate_ast fuel .DefaultZero st1 with
         | (st2, .error e) => (st2, .error e)
         | (st2, .ok expr) =>
           match check_paren Token.RightParen st2 with
           | (st3, .error e) => (st3, .error e)
           | (st3, .ok _) =>
             if st3.1 = Token.Subtract then (st3, .ok expr)
             else
               match parse_number fuel st3 with
               | (st4, .ok rightExpr) => (st4, .ok (.Multiply expr rightExpr))
               | (st4, .error _) => (st4, .ok expr))
    | _ => (st, .error (.UnableToParse "Unable to parse"))

/-- `Parser::convert_token_to_node` (`parser.rs` lines 123–165): consume
the current binary-operator token and parse its right operand at that
operator's own precedence; the result always places the accumulated
`left` expression as the left child. -/
def convert_token_to_node :
    ℕ → Node → PState → PState × Except ParseError Node
  | 0, _, st => (st, .error .OutOfFuel)
  | fuel + 1, left, st =>
    match st.1 with
    | Token.Add =>
      (match get_next_token st with
       | (st1, .error e) => (st1, .error e)
       | (st1, .ok _) =>
         match generate_ast fuel .AddSub st1 with
         | (st2, .error e) => (st2, .error e)
         | (st2, .ok r) => (st2, .ok (.Add left r)))
    | Token.Subtract =>
      (match get_next_token st with
       | (st1, .error e) => (st1, .error e)
       | (st1, .ok _) =>
         match generate_ast fuel .AddSub st1 with
         | (st2, .error e) => (st2, .error e)
         | (st2, .ok r) => (st2, .ok (.Subtract left r)))
    | Token.Multiply =>
      (match get_next_token st with
       | (st1, .error e) => (st1, .error e)
       | (st1, .ok _) =>
         match generate_ast fuel .MulDiv st1 with
         | (st2, .error e) => (st2, .error e)
         | (st2, .ok r) => (st2, .ok (.Multiply left r)))
    | Token.Divide =>
      (match get_next_token st with
       | (st1, .error e) => (st1, .error e)
       | (st1, .ok _) =>
         match generate_ast fuel .MulDiv st1 with
         | (st2, .error e) => (st2, .error e)
         | (st2, .ok r) => (st2, .ok (.Divide left r)))
    | Token.Caret =>
      (match get_next_token st with
       | (st1, .error e) => (st1, .error e)
       | (st1, .ok _) =>
         match generate_ast fuel .Power st1 with
         | (st2, .error e) => (st2, .error e)
         | (st2, .ok r) => (st2, .ok (.Caret left r)))
    | Token.And =>
      (match get_next_token st with
       | (st1, .error e) => (st1, .error e)
       | (st1, .ok _) =>
         match generate_ast fuel .AndOr st1 with
         | (st2, .error e) => (st2, .error e)
         | (st2, .ok r) => (st2, .ok (.And left r)))
    | Token.Or =>
      (match get_next_token st with
       | (st1, .error e) => (st1, .error e)
       | (st1, .ok _) =>
         match generate_ast fuel .AndOr st1 with
         | (st2, .error e) => (st2, .error e)
         | (st2, .ok r) => (st2, .ok (.Or left r)))
    | _ => (st, .error (.InvalidOperator "Please enter a valid operator"))

end

/-- `Parser::new` (`parser.rs` lines 22–32): pull the first token during
construction; a tokenizer `None` fails construction (no parser state
escapes a failed construction, so the plain `tokNext` suffices here). -/
def parserNew (s : List Char) : Except ParseError PState :=
  match tokNext s with
  | none => .error (.InvalidOperator "Invalid character")
  | some (t, r) => .ok (t, r)

/-- Fuel that is always sufficient for the embedded parser on the given
input (each consumed character funds a bounded number of calls). -/
def fuelFor (s : String) : ℕ := 8 * s.length + 32

/-- `Parser::new` followed by `Parser::parse` (`parser.rs` lines 35–41):
`parse` is `generate_ast(DefaultZero)`.  Returns the AST together with
the final parser state. -/
def parseFull (s : String) : Except ParseError (Node × PState) :=
  match parserNew s.toList with
  | .error e => .error e
  | .ok st =>
    match generate_ast (fuelFor s) .DefaultZero st with
    | (_, .error e) => .error e
    | (stFinal, .ok n) => .ok (n, stFinal)

/-- The whole pipeline: parse, then evaluate the resulting AST. -/
def evalStr (s : String) : Except String FVal :=
  match parseFull s with
  | .error _ => .error "Parse failure"
  | .ok (n, _) => eval n

/-- A successful `convert_token_to_node` result seen as data: the node is
one of the seven binary constructors with the accumulated expression
`left` as its left child.  This is the single-step form of
left-associative binding. -/
def BinWrap (left n : Node) : Prop :=
  ∃ r, n = .Add left r ∨ n = .Subtract left r ∨ n = .Multiply left r
    ∨ n = .Divide left r ∨ n = .Caret left r ∨ n = .And left r
    ∨ n = .Or left r

/-- `base` lies on the leftmost spine of `n`: `n` is `base` wrapped by
zero or more binary nodes, each taking the previous expression as its
left child.  The operator loop only ever grows results this way — the
shape of a left-associative fold. -/
inductive LeftSpine (base : Node) : Node → Prop where
  | refl : LeftSpine base base
  | addN (a r : Node) : LeftSpine base a → LeftSpine base (.Add a r)
  | subN (a r : Node) : LeftSpine base a → LeftSpine base (.Subtract a r)
  | mulN (a r : Node) : LeftSpine base a → LeftSpine base (.Multiply a r)
  | divN (a r : Node) : LeftSpine base a → LeftSpine base (.Divide a r)
  | caretN (a r : Node) : LeftSpine base a → LeftSpine base (.Caret a r)
  | andN (a r : Node) : LeftSpine base a → LeftSpine base (.And a r)
  | orN (a r : Node) : LeftSpine base a → LeftSpine base (.Or a r)

/-! ## Sanity checks: the repository's own unit tests, replayed on the
model (`ast.rs`, `parser.rs` and `tokenizer.rs` test modules). -/

example : evalStr "1+2-3" = .ok (.finite 0) := by with_unfolding_all rfl
example : evalStr "3+2-1*5/4" = .ok (.finite (15 / 4)) := by with_unfolding_all rfl
example : evalStr "3+3 | 4" = .ok (.finite 6) := by with_unfolding_all rfl
example : evalStr "-2^3" = .ok (.finite (-8)) := by with_unfolding_all rfl
example : evalStr "4^0.5" = .ok (.finite 2) := by with_unfolding_all rfl
example : evalStr "(-5)4" = .ok (.finite (-20)) := by with_unfolding_all rfl
example : evalStr "-5(4)" = .ok (.finite (-20)) := by with_unfolding_all rfl
example : evalStr "-1|2" = .ok (.finite (-1)) := by with_unfolding_all rfl
example : evalStr "(3.5 + 4.5) * 2 ^ ((7 & 3) | 1)" = .ok (.finite 64) := by
  with_unfolding_all rfl
example : isErrE (parseFull "(1+2") = true := by with_unfolding_all rfl
example : isErrE (parseFull "8 @ 6") = true := by with_unfolding_all rfl
example :
    parseFull "(1 + 2) (3 / 4)" =
      .ok (.Multiply (.Add (.Number 1) (.Number 2))
            (.Divide (.Number 3) (.Number 4)), (Token.EOF, [])) := by
  with_unfolding_all rfl
example :
    parseFull "(1)2(+3" =
      .ok (.Add (.Number 1) (.Number 3), (Token.EOF, [])) := by
  with_unfolding_all rfl
example : evalStr "(1)2(+3" = .ok (.finite 4) := by with_unfolding_all rfl
example :
    parseFull "(1)(2+@5" =
      .ok (.Add (.Number 1) (.Number 5), (Token.EOF, [])) := by
  with_unfolding_all rfl
example :
    parseFull "6 & 3 | 1" =
      .ok (.Or (.And (.Number 6) (.Number 3)) (.Number 1), (Token.EOF, [])) := by
  with_unfolding_all rfl

/-! ## Claims -/

/-- C8: the claim asserts that after the one end-of-input token the
tokenizer's sequence is exhausted (a further `next()` yields no token);
in the code `Tokenizer::next` hits the `None => Some(Token::EOF)` arm of
its match on every call once the characters are exhausted, so the very
first input — the empty string — already refutes it. -/
theorem c8_counterexample :
    ¬ (∀ (s rest : List Char),
        tokNext s = some (Token.EOF, rest) → tokNext rest = none) := by
  intro h
  have h2 := h [] [] rfl
  simp [tokNext] at h2

/-- C8 (amended): the tokenizer yields an end-of-input token exactly when
the characters are exhausted, and every subsequent `next()` call yields
the end-of-input token again — the sequence is never exhausted after end
of input (`None` signals only an invalid character or a malformed
literal). -/
theorem c8_theorem (s rest : List Char)
    (h : tokNext s = some (Token.EOF, rest)) :
    rest = [] ∧ tokNext rest = some (Token.EOF, []) := by
  induction s with
  | nil =>
    simp [tokNext] at h
    simp [h, tokNext]
  | cons c cs ih =>
    rw [tokNext] at h
    split at h
    · exact ih h
    · split at h
      · cases hs : scanNum cs [c] false with
        | none => rw [hs] at h; exact absurd h (by simp)
        | some p =>
          obtain ⟨buf, r⟩ := p
          rw [hs] at h
          simp only [Option.some.injEq, Prod.mk.injEq] at h
          exact absurd h.1 (by simp)
      · split at h
        · simp at h
        · split at h
          · simp at h
          · split at h
            · simp at h
            · split at h
              · simp at h
              · split at h
                · simp at h
                · split at h
                  · simp at h
                  · split at h
                    · simp at h
                    · split at h
                      · simp at h
                      · split at h
                        · simp at h
                        · simp at h

/-- C8 witness: the amended theorem applied at the empty input. -/
theorem c8_witness :
    tokNext ([] : List Char) = some (Token.EOF, []) ∧
      ([] : List Char) = [] ∧ tokNext ([] : List Char) = some (Token.EOF, []) :=
  ⟨rfl, c8_theorem [] [] rfl⟩

/-- C9: ASCII whitespace is skipped between tokens and inside numeric
literals, so digits and a decimal point separated by whitespace
concatenate into a single numeric literal: `"1 2 . 3 4"` tokenizes to the
single token `Num(12.34)` (and the repository's other whitespace tests
behave likewise). -/
theorem c9_theorem :
    tokNext ("1 2 . 3 4".toList) = some (Token.Num ((1234 : ℚ) / 100), [])
    ∧ tokNext ("1\t.\n2\r\n3".toList) = some (Token.Num ((123 : ℚ) / 100), [])
    ∧ tokNext ("  \t\n\r  34.56".toList) =
        some (Token.Num ((3456 : ℚ) / 100), []) := by
  refine ⟨?_, ?_, ?_⟩ <;> with_unfolding_all rfl

/-- C10: constructing a parser on the empty input succeeds (the first
pulled token is the end-of-input token, not a lexical failure), and the
subsequent `parse()` fails with `UnableToParse` — no default numeric
result. -/
theorem c10_theorem :
    parserNew ("".toList) = .ok (Token.EOF, [])
    ∧ parseFull "" = .error (ParseError.UnableToParse "Unable to parse") := by
  refine ⟨?_, ?_⟩ <;> with_unfolding_all rfl

/-- A precedence whose rank is at most `DefaultZero`'s is `DefaultZero`. -/
theorem operPrec_eq_defaultZero_of_le (p : OperPrec)
    (h : p.toNat ≤ OperPrec.DefaultZero.toNat) : p = OperPrec.DefaultZero := by
  cases p <;> simp [OperPrec.toNat] at h ⊢

/-- The refined digit scan agrees with `scanNum` on the token outcome:
`scanNumS` only adds the iterator position to the failing case. -/
theorem scanNum_agrees (cs : List Char) : ∀ (buf : List Char) (hd : Bool),
    scanNum cs buf hd =
      (match scanNumS cs buf hd with
       | (some b, r) => some (b, r)
       | (none, _) => none) := by
  induction cs with
  | nil => intro buf hd; rfl
  | cons c cs ih =>
    intro buf hd
    rw [scanNum, scanNumS]
    cases h1 : c.isDigit with
    | true => simp only [h1, if_true]; exact ih _ _
    | false =>
      simp only [h1, Bool.false_eq_true, if_false]
      by_cases h2 : c = '.'
      · simp only [h2, if_true]
        cases hd with
        | true => simp
        | false => simpa using ih _ _
      · simp only [h2, if_false]
        cases h3 : isWS c with
        | true => simp only [h3, if_true]; exact ih _ _
        | false => simp only [h3, Bool.false_eq_true, if_false]

/-- The refined tokenizer agrees with `tokNext` on the token outcome:
`tokNextS` only adds the iterator position to the failing case. -/
theorem tokNext_agrees (s : List Char) :
    tokNext s =
      (match tokNextS s with
       | (some t, r) => some (t, r)
       | (none, _) => none) := by
  induction s with
  | nil => rfl
  | cons c cs ih =>
    rw [tokNext, tokNextS]
    cases h1 : isWS c with
    | true => simp only [h1, if_true]; exact ih
    | false =>
      simp only [h1, Bool.false_eq_true, if_false]
      cases h2 : c.isDigit with
      | true =>
        simp only [h2, if_true]
        rw [scanNum_agrees]
        cases hs : scanNumS cs [c] false with
        | mk ob r => cases ob <;> rfl
      | false =>
        simp only [h2, Bool.false_eq_true, if_false]
        by_cases h3 : c = '&'
        · simp [h3]
        · simp only [h3, if_false]
          by_cases h4 : c = '|'
          · simp [h4]
          · simp only [h4, if_false]
            by_cases h5 : c = '+'
            · simp [h5]
            · simp only [h5, if_false]
              by_cases h6 : c = '-'
              · simp [h6]
              · simp only [h6, if_false]
                by_cases h7 : c = '*'
                · simp [h7]
                · simp only [h7, if_false]
                  by_cases h8 : c = '/'
                  · simp [h8]
                  · simp only [h8, if_false]
                    by_cases h9 : c = '^'
                    · simp [h9]
                    · simp only [h9, if_false]
                      by_cases h10 : c = '('
                      · simp [h10]
                      · simp only [h10, if_false]
                        by_cases h11 : c = ')'
                        · simp [h11]
                        · simp only [h11, if_false]

/-- Exiting the operator loop of `generate_ast` leaves the current token
at a precedence rank no higher than the loop's threshold: the loop only
stops at end-of-input or at a token that does not bind more tightly. -/
theorem gaLoop_exit_prec (fuel : ℕ) :
    ∀ (p : OperPrec) (left : Node) (st st1 : PState) (res : Node),
      gaLoop fuel p left st = (st1, .ok res) →
      (st1.1.get_oper_prec).toNat ≤ p.toNat := by
  induction fuel with
  | zero => intro p left st st1 res h; simp [gaLoop] at h
  | succ n ih =>
    intro p left st st1 res h
    rw [gaLoop] at h
    split at h
    · split at h
      · rename_i hEOF
        simp only [Prod.mk.injEq] at h
        obtain ⟨h1, -⟩ := h
        subst h1
        simp [hEOF, Token.get_oper_prec, OperPrec.toNat]
      · cases hc : convert_token_to_node n left st with
        | mk stc rc =>
          rw [hc] at h
          cases rc with
          | error e => simp at h
          | ok l2 => exact ih p l2 stc st1 res h
    · rename_i hnlt
      simp only [Prod.mk.injEq] at h
      obtain ⟨h1, -⟩ := h
      subst h1
      rw [precLt, decide_eq_true_eq] at hnlt
      show (st.1.get_oper_prec).toNat ≤ p.toNat
      omega

/-- `generate_ast` at threshold `p` stops before any token of precedence
rank at most `p` — in particular, the right operand of an operator
(parsed at that operator's own precedence) never absorbs a following
operator of equal precedence, which is what rules out right-associative
grouping. -/
theorem generate_ast_exit_prec (fuel : ℕ) (p : OperPrec) (st st1 : PState)
    (res : Node) (h : generate_ast fuel p st = (st1, .ok res)) :
    (st1.1.get_oper_prec).toNat ≤ p.toNat := by
  cases fuel with
  | zero => simp [generate_ast] at h
  | succ f =>
    rw [generate_ast] at h
    cases hpn : parse_number f st with
    | mk stp rp =>
      rw [hpn] at h
      cases rp with
      | error e => simp at h
      | ok left => exact gaLoop_exit_prec f p left stp st1 res h

/-- A successful `convert_token_to_node` call always wraps the
accumulated expression as the left child of the consumed operator's
node. -/
theorem convert_wraps_left (fuel : ℕ) (left : Node) (st st1 : PState)
    (n : Node) (h : convert_token_to_node fuel left st = (st1, .ok n)) :
    BinWrap left n := by
  cases fuel with
  | zero => simp [convert_token_to_node] at h
  | succ f =>
    rw [convert_token_to_node] at h
    split at h
    · split at h
      · simp at h
      · split at h
        · simp at h
        · simp only [Prod.mk.injEq, Except.ok.injEq] at h
          obtain ⟨-, h2⟩ := h
          subst h2
          exact ⟨_, Or.inl rfl⟩
    · split at h
      · simp at h
      · split at h
        · simp at h
        · simp only [Prod.mk.injEq, Except.ok.injEq] at h
          obtain ⟨-, h2⟩ := h
          subst h2
          exact ⟨_, Or.inr (Or.inl rfl)⟩
    · split at h
      · simp at h
      · split at h
        · simp at h
        · simp only [Prod.mk.injEq, Except.ok.injEq] at h
          obtain ⟨-, h2⟩ := h
          subst h2
          exact ⟨_, Or.inr (Or.inr (Or.inl rfl))⟩
    · split at h
      · simp at h
      · split at h
        · simp at h
        · simp only [Prod.mk.injEq, Except.ok.injEq] at h
          obtain ⟨-, h2⟩ := h
          subst h2
          exact ⟨_, Or.inr (Or.inr (Or.inr (Or.inl rfl)))⟩
    · split at h
      · simp at h
      · split at h
        · simp at h
        · simp only [Prod.mk.injEq, Except.ok.injEq] at h
          obtain ⟨-, h2⟩ := h
          subst h2
          exact ⟨_, Or.inr (Or.inr (Or.inr (Or.inr (Or.inl rfl))))⟩
    · split at h
      · simp at h
      · split at h
        · simp at h
        · simp only [Prod.mk.injEq, Except.ok.injEq] at h
          obtain ⟨-, h2⟩ := h
          subst h2
          exact ⟨_, Or.inr (Or.inr (Or.inr (Or.inr (Or.inr (Or.inl rfl)))))⟩
    · split at h
      · simp at h
      · split at h
        · simp at h
        · simp only [Prod.mk.injEq, Except.ok.injEq] at h
          obtain ⟨-, h2⟩ := h
          subst h2
          exact ⟨_, Or.inr (Or.inr (Or.inr (Or.inr (Or.inr (Or.inr rfl)))))⟩
    all_goals simp at h

/-- `LeftSpine` is transitive. -/
theorem leftSpine_trans {a b c : Node} (h1 : LeftSpine a b)
    (h2 : LeftSpine b c) : LeftSpine a c := by
  induction h2 with
  | refl => exact h1
  | addN x r _ ih => exact LeftSpine.addN x r ih
  | subN x r _ ih => exact LeftSpine.subN x r ih
  | mulN x r _ ih => exact LeftSpine.mulN x r ih
  | divN x r _ ih => exact LeftSpine.divN x r ih
  | caretN x r _ ih => exact LeftSpine.caretN x r ih
  | andN x r _ ih => exact LeftSpine.andN x r ih
  | orN x r _ ih => exact LeftSpine.orN x r ih

/-- One step of the loop keeps the accumulated expression on the
leftmost spine. -/
theorem binWrap_leftSpine {left n : Node} (h : BinWrap left n) :
    LeftSpine left n := by
  obtain ⟨r, hc⟩ := h
  rcases hc with h1 | h1 | h1 | h1 | h1 | h1 | h1 <;> rw [h1]
  · exact LeftSpine.addN _ _ LeftSpine.refl
  · exact LeftSpine.subN _ _ LeftSpine.refl
  · exact LeftSpine.mulN _ _ LeftSpine.refl
  · exact LeftSpine.divN _ _ LeftSpine.refl
  · exact LeftSpine.caretN _ _ LeftSpine.refl
  · exact LeftSpine.andN _ _ LeftSpine.refl
  · exact LeftSpine.orN _ _ LeftSpine.refl

/-- Over any number of iterations — any chain of operators the loop
folds — the expression the loop started from stays on the leftmost spine
of the result: every later operator wraps around the accumulated
expression, never the other way. -/
theorem gaLoop_left_spine (fuel : ℕ) :
    ∀ (p : OperPrec) (left : Node) (st st1 : PState) (res : Node),
      gaLoop fuel p left st = (st1, .ok res) → LeftSpine left res := by
  induction fuel with
  | zero => intro p left st st1 res h; simp [gaLoop] at h
  | succ n ih =>
    intro p left st st1 res h
    rw [gaLoop] at h
    split at h
    · split at h
      · simp only [Prod.mk.injEq, Except.ok.injEq] at h
        rw [← h.2]
        exact LeftSpine.refl
      · cases hc : convert_token_to_node n left st with
        | mk stc rc =>
          rw [hc] at h
          cases rc with
          | error e => simp at h
          | ok l2 =>
            exact leftSpine_trans
              (binWrap_leftSpine (convert_wraps_left n left st stc l2 hc))
              (ih p l2 stc st1 res h)
    · simp only [Prod.mk.injEq, Except.ok.injEq] at h
      rw [← h.2]
      exact LeftSpine.refl

/-- C2 (amended): after a successful parse the parser's current token
always has `DefaultZero` precedence (the end-of-input marker, a
parenthesis or a number token) — but it need not be the end-of-input
marker, and unconsumed input may remain (see `c2_counterexample`). -/
theorem c2_theorem (s : String) (n : Node) (st : PState)
    (h : parseFull s = .ok (n, st)) :
    st.1.get_oper_prec = OperPrec.DefaultZero := by
  cases hp : parserNew s.toList with
  | error e => simp only [parseFull, hp] at h; exact absurd h (by simp)
  | ok st0 =>
    simp only [parseFull, hp] at h
    cases hg : generate_ast (fuelFor s) OperPrec.DefaultZero st0 with
    | mk st1 r =>
      rw [hg] at h
      cases r with
      | error e => simp at h
      | ok n1 =>
        simp only [Except.ok.injEq, Prod.mk.injEq] at h
        obtain ⟨-, hst⟩ := h
        subst hst
        exact operPrec_eq_defaultZero_of_le _
          (generate_ast_exit_prec (fuelFor s) .DefaultZero st0 st1 n1 hg)

/-- C2: the claim asserts that a successful parse consumes the entire
token stream, leaving only the end-of-input marker; but `generate_ast`
simply stops at any `DefaultZero`-precedence token, so `"1)2"` parses
successfully to `Number 1` with `")"` and `"2"` unconsumed. -/
theorem c2_counterexample :
    ¬ (∀ (s : String) (n : Node) (st : PState),
        parseFull s = .ok (n, st) → st.1 = Token.EOF ∧ st.2 = []) := by
  intro h
  have h2 := h "1)2" (Node.Number 1) (Token.RightParen, ['2'])
      (by with_unfolding_all rfl)
  exact absurd h2.1 (by simp)

/-- C2 witness: the amended theorem applied to the input `"1"`. -/
theorem c2_witness :
    parseFull "1" = .ok (Node.Number 1, (Token.EOF, [])) ∧
      Token.get_oper_prec Token.EOF = OperPrec.DefaultZero :=
  ⟨by with_unfolding_all rfl,
   c2_theorem "1" (Node.Number 1) (Token.EOF, []) (by with_unfolding_all rfl)⟩

/-- C1: the claim asserts every `Ok` result of `eval` is a finite value;
but only `Divide`, `Caret`, `And` and `Or` are guarded — `Add` (like
`Subtract`, `Multiply` and `Negative`) performs unchecked arithmetic, so
adding two large literals overflows to infinity and is returned as `Ok`. -/
theorem c1_counterexample :
    ¬ (∀ (t : Node) (v : FVal), eval t = .ok v → FVal.isFiniteF v = true) := by
  intro h
  have h2 := h
      (Node.Add (Node.Number ((10 : ℚ) ^ 308)) (Node.Number ((10 : ℚ) ^ 308)))
      FVal.inf (by with_unfolding_all rfl)
  simp [FVal.isFiniteF] at h2

/-- C1 (amended): no error is downgraded to a default value — if the
evaluation of a direct operand fails, evaluation of every compound node
over it fails; but `Ok` results are not guaranteed finite (`Number`
literals and `Add`/`Subtract`/`Multiply`/`Divide` arithmetic are not
checked for overflow, see `c1_counterexample`). -/
theorem c1_theorem (a b : Node)
    (h : isErrE (eval a) = true ∨ isErrE (eval b) = true) :
    isErrE (eval (Node.Add a b)) = true
    ∧ isErrE (eval (Node.Subtract a b)) = true
    ∧ isErrE (eval (Node.Multiply a b)) = true
    ∧ isErrE (eval (Node.Divide a b)) = true
    ∧ isErrE (eval (Node.Caret a b)) = true
    ∧ isErrE (eval (Node.And a b)) = true
    ∧ isErrE (eval (Node.Or a b)) = true
    ∧ (isErrE (eval a) = true → isErrE (eval (Node.Negative a)) = true) := by
  rcases h with h | h
  · cases ha : eval a with
    | ok v => rw [ha] at h; simp [isErrE] at h
    | error m =>
      refine ⟨by simp [eval, ha, isErrE], by simp [eval, ha, isErrE],
              by simp [eval, ha, isErrE], ?_, by simp [eval, ha, isErrE],
              by simp [eval, ha, isErrE], by simp [eval, ha, isErrE],
              fun _ => by simp [eval, ha, isErrE]⟩
      cases hb : eval b with
      | error m2 => simp [eval, hb, isErrE]
      | ok d =>
        simp only [eval, hb, ha]
        split
        · rfl
        · rfl
  · cases hb : eval b with
    | ok v => rw [hb] at h; simp [isErrE] at h
    | error m =>
      refine ⟨?_, ?_, ?_, by simp [eval, hb, isErrE], ?_, ?_, ?_,
              fun h2 => ?_⟩
      · cases ha : eval a <;> simp [eval, ha, hb, isErrE]
      · cases ha : eval a <;> simp [eval, ha, hb, isErrE]
      · cases ha : eval a <;> simp [eval, ha, hb, isErrE]
      · cases ha : eval a <;> simp [eval, ha, hb, isErrE]
      · cases ha : eval a <;> simp [eval, ha, hb, isErrE]
      · cases ha : eval a <;> simp [eval, ha, hb, isErrE]
      · cases ha : eval a with
        | ok v => rw [ha] at h2; simp [isErrE] at h2
        | error m2 => simp [eval, ha, isErrE]

/-- C1 witness: the amended theorem applied with the failing operand
`1/0` under an `Add` node. -/
theorem c1_witness :
    isErrE (eval (Node.Divide (Node.Number 1) (Node.Number 0))) = true ∧
      isErrE (eval (Node.Add (Node.Divide (Node.Number 1) (Node.Number 0))
        (Node.Number 1))) = true :=
  ⟨by with_unfolding_all rfl,
   (c1_theorem (Node.Divide (Node.Number 1) (Node.Number 0)) (Node.Number 1)
      (Or.inl (by with_unfolding_all rfl))).1⟩

/-- Evaluating a `Caret` node reduces to `caretOp` once both operands
evaluate successfully. -/
theorem eval_caret_ok (a b : Node) (x y : FVal)
    (ha : eval a = .ok x) (hb : eval b = .ok y) :
    eval (Node.Caret a b) = caretOp x y := by
  simp [eval, ha, hb]

/-- C5: for a `Caret` node whose operands evaluate to `base` and `exp`,
evaluation fails exactly when `base == 0 && exp < 0`, or `base < 0` with
the fractional part of `exp` exceeding epsilon in absolute value, or the
power is infinite; otherwise it returns the computed power.  The three
listed inputs all fail, one per guard. -/
theorem c5_theorem (a b : Node) (base pw : FVal)
    (ha : eval a = .ok base) (hb : eval b = .ok pw) :
    (isErrE (eval (Node.Caret a b)) = true ↔
      (FVal.feq base (.finite 0) = true ∧ FVal.flt pw (.finite 0) = true)
      ∨ (FVal.flt base (.finite 0) = true
          ∧ FVal.fgt (FVal.fabs (FVal.ffract pw)) (.finite FVal.eps) = true)
      ∨ FVal.isInfiniteF (FVal.fpowf base pw) = true)
    ∧ (isErrE (eval (Node.Caret a b)) = false →
        eval (Node.Caret a b) = .ok (FVal.fpowf base pw))
    ∧ evalStr "0^-1" = .error "0^negative is undefined"
    ∧ evalStr "-4^0.5" = .error "Negative base with fractional exponent"
    ∧ evalStr "100000000^100" = .error "Overflow in exponentiation" := by
  rw [eval_caret_ok a b base pw ha hb]
  refine ⟨⟨?_, ?_⟩, ?_, by with_unfolding_all rfl, by with_unfolding_all rfl,
    by with_unfolding_all rfl⟩
  · intro herr
    simp only [caretOp] at herr
    split at herr
    · rename_i hc1
      rw [Bool.and_eq_true] at hc1
      exact Or.inl hc1
    · split at herr
      · rename_i hc2
        rw [Bool.and_eq_true] at hc2
        exact Or.inr (Or.inl hc2)
      · split at herr
        · rename_i hc3
          exact Or.inr (Or.inr hc3)
        · simp [isErrE] at herr
  · intro hrhs
    rcases hrhs with ⟨h1, h2⟩ | ⟨h1, h2⟩ | h3
    · simp [caretOp, h1, h2, isErrE]
    · cases h0 : (FVal.feq base (FVal.finite 0) && FVal.flt pw (FVal.finite 0)) with
      | true => simp [caretOp, h0, isErrE]
      | false => simp [caretOp, h0, h1, h2, isErrE]
    · cases h0 : (FVal.feq base (FVal.finite 0) && FVal.flt pw (FVal.finite 0)) with
      | true => simp [caretOp, h0, isErrE]
      | false =>
        cases h0b : (FVal.flt base (FVal.finite 0)
            && FVal.fgt (FVal.fabs (FVal.ffract pw)) (FVal.finite FVal.eps)) with
        | true => simp [caretOp, h0, h0b, isErrE]
        | false => simp [caretOp, h0, h0b, h3, isErrE]
  · intro hok
    cases h1 : (FVal.feq base (FVal.finite 0) && FVal.flt pw (FVal.finite 0)) with
    | true => simp [caretOp, h1, isErrE] at hok
    | false =>
      cases h2 : (FVal.flt base (FVal.finite 0)
          && FVal.fgt (FVal.fabs (FVal.ffract pw)) (FVal.finite FVal.eps)) with
      | true => simp [caretOp, h1, h2, isErrE] at hok
      | false =>
        cases h3 : FVal.isInfiniteF (FVal.fpowf base pw) with
        | true => simp [caretOp, h1, h2, h3, isErrE] at hok
        | false => simp [caretOp, h1, h2, h3]

/-- C5 witness: the theorem applied at `Caret(Number 0, Number (-1))`. -/
theorem c5_witness :
    eval (Node.Number 0) = .ok (.finite 0) ∧
      evalStr "0^-1" = .error "0^negative is undefined" :=
  ⟨by with_unfolding_all rfl,
   (c5_theorem (Node.Number 0) (Node.Number (-1)) (.finite 0) (.finite (-1))
      (by with_unfolding_all rfl) (by with_unfolding_all rfl)).2.2.1⟩

/-- C6: the claim restricts bitwise operands to the representable `i64`
range; but the code's upper bound is `i64::MAX as f64 = 2^63` (the cast
rounds up), so the out-of-range value `2^63` passes the guard and is
saturating-cast to `2^63 - 1` instead of failing: `And(2^63, 0)`
evaluates to `Ok(0)`. -/
theorem c6_counterexample :
    ¬ (∀ (a b : Node) (l r : FVal), eval a = .ok l → eval b = .ok r →
        (¬ ∃ z : ℤ, l = FVal.finite (z : ℚ) ∧ -(2 ^ 63) ≤ z ∧ z ≤ 2 ^ 63 - 1) →
        isErrE (eval (Node.And a b)) = true) := by
  intro h
  have h2 := h (Node.Number ((2 ^ 63 : ℕ) : ℚ)) (Node.Number 0)
      (FVal.finite ((2 ^ 63 : ℕ) : ℚ)) (FVal.finite 0)
      (by with_unfolding_all rfl) (by with_unfolding_all rfl) ?_
  · have h3 : isErrE (eval (Node.And (Node.Number ((2 ^ 63 : ℕ) : ℚ))
        (Node.Number 0))) = false := by with_unfolding_all rfl
    rw [h2] at h3
    exact Bool.noConfusion h3
  · rintro ⟨z, hz, hlo, hhi⟩
    have hq : ((2 ^ 63 : ℕ) : ℚ) = (z : ℚ) := by injection hz
    have hz2 : ((2 ^ 63 : ℕ) : ℤ) = z := by exact_mod_cast hq
    have hp : ((2 ^ 63 : ℕ) : ℤ) = (2 : ℤ) ^ 63 := by push_cast
    rw [hp] at hz2
    rw [← hz2] at hhi
    linarith

/-- C6 (amended): `And`/`Or` fail unless both operands are exact integers
within `[i64::MIN as f64, i64::MAX as f64] = [-(2^63), 2^63]` (note the
rounded-up upper bound); when the guard passes, both operands go through
the saturating `f64 → i64` cast (so `2^63` saturates to `2^63 - 1`), the
bitwise operation is applied, and the result is cast back to `f64` with
rounding.  `6.5 & 2` still fails, as the claim's example requires. -/
theorem c6_theorem (a b : Node) (l r : FVal)
    (ha : eval a = .ok l) (hb : eval b = .ok r) :
    ((i64Guard l && i64Guard r) = true →
      eval (Node.And a b) =
        .ok (.finite (roundIntToF64 (intLand (castI64 l) (castI64 r))))
      ∧ eval (Node.Or a b) =
        .ok (.finite (roundIntToF64 (intLor (castI64 l) (castI64 r)))))
    ∧ ((i64Guard l && i64Guard r) = false →
        isErrE (eval (Node.And a b)) = true
        ∧ isErrE (eval (Node.Or a b)) = true)
    ∧ evalStr "6.5&2" =
        .error "Cannot perform bitwise AND with the following expressions"
    ∧ i64Guard (FVal.finite ((2 ^ 63 : ℕ) : ℚ)) = true := by
  refine ⟨?_, ?_, by with_unfolding_all rfl, by with_unfolding_all rfl⟩
  · intro hg
    constructor <;> simp [eval, ha, hb, andOp, orOp, hg]
  · intro hg
    constructor <;> simp [eval, ha, hb, andOp, orOp, hg, isErrE]

/-- C6 witness: the amended theorem applied at `And(Number 6, Number 2)`. -/
theorem c6_witness :
    (i64Guard (FVal.finite 6) && i64Guard (FVal.finite 2)) = true ∧
      eval (Node.And (Node.Number 6) (Node.Number 2)) = .ok (.finite 2) := by
  refine ⟨by with_unfolding_all rfl, ?_⟩
  have h := ((c6_theorem (Node.Number 6) (Node.Number 2) (.finite 6) (.finite 2)
      (by with_unfolding_all rfl) (by with_unfolding_all rfl)).1
      (by with_unfolding_all rfl)).1
  exact h.trans (by with_unfolding_all rfl)

/-- C7: `Divide` evaluates the denominator first; a denominator whose
absolute value is below `f64::EPSILON` fails with the division-by-zero
error regardless of the numerator (which is not evaluated), and otherwise
a successful numerator gives the quotient.  `1/0` fails. -/
theorem c7_theorem (a b : Node) (d : FVal) (hb : eval b = .ok d) :
    (FVal.flt (FVal.fabs d) (.finite FVal.eps) = true →
      eval (Node.Divide a b) = .error "Division by zero")
    ∧ (FVal.flt (FVal.fabs d) (.finite FVal.eps) = false →
        ∀ m, eval a = .ok m →
          eval (Node.Divide a b) = .ok (FVal.fdiv m d))
    ∧ evalStr "1/0" = .error "Division by zero" := by
  refine ⟨?_, ?_, by with_unfolding_all rfl⟩
  · intro hlt
    simp [eval, hb, hlt]
  · intro hge m hm
    simp [eval, hb, hge, hm]

/-- C7 witness: the theorem applied at `Divide(Number 1, Number 0)`. -/
theorem c7_witness :
    FVal.flt (FVal.fabs (FVal.finite 0)) (.finite FVal.eps) = true ∧
      eval (Node.Divide (Node.Number 1) (Node.Number 0)) =
        .error "Division by zero" :=
  ⟨by with_unfolding_all rfl,
   (c7_theorem (Node.Number 1) (Node.Number 0) (.finite 0)
      (by with_unfolding_all rfl)).1 (by with_unfolding_all rfl)⟩

/-- C3: for every chain of equal-precedence binary operators the parser
binds left-associatively.  The general parts: (i) every operator the
loop folds wraps the accumulated expression as the left child of its
node (`BinWrap`), and over any number of iterations — any chain length —
the starting expression stays on the leftmost spine of the result
(`LeftSpine`); (ii) the right operand of an operator, parsed at that
operator's own precedence, stops before the next token of equal or
lower precedence rank, so an equal-precedence successor is folded by the
enclosing loop instead of being absorbed into the right operand (which
is what right-associative grouping would require).  In particular
`2^3^2` parses as `Caret(Caret(Number 2, Number 3), Number 2)` — caret
is left-associative, not right-associative — and evaluates to `64.0`
(and the equal-precedence chain `1+2-3` folds to the left likewise,
evaluating to `0`). -/
theorem c3_theorem :
    (∀ (fuel : ℕ) (left : Node) (st st1 : PState) (n : Node),
        convert_token_to_node fuel left st = (st1, .ok n) → BinWrap left n)
    ∧ (∀ (fuel : ℕ) (p : OperPrec) (left : Node) (st st1 : PState)
        (res : Node),
        gaLoop fuel p left st = (st1, .ok res) → LeftSpine left res)
    ∧ (∀ (fuel : ℕ) (p : OperPrec) (st st1 : PState) (res : Node),
        generate_ast fuel p st = (st1, .ok res) →
          (st1.1.get_oper_prec).toNat ≤ p.toNat)
    ∧ parseFull "2^3^2" =
        .ok (.Caret (.Caret (.Number 2) (.Number 3)) (.Number 2),
          (Token.EOF, []))
    ∧ evalStr "2^3^2" = .ok (.finite 64)
    ∧ parseFull "1+2-3" =
        .ok (.Subtract (.Add (.Number 1) (.Number 2)) (.Number 3),
          (Token.EOF, []))
    ∧ evalStr "1+2-3" = .ok (.finite 0) := by
  refine ⟨fun fuel left st st1 n h => convert_wraps_left fuel left st st1 n h,
    fun fuel p left st st1 res h => gaLoop_left_spine fuel p left st st1 res h,
    fun fuel p st st1 res h => generate_ast_exit_prec fuel p st st1 res h,
    ?_, ?_, ?_, ?_⟩ <;> with_unfolding_all rfl

/-- C3 witness: the theorem's wrap component applied at the first `^` of
`2^3^2` (current token `^`, remaining input `3^2`, accumulated left
operand `Number 2`). -/
theorem c3_witness :
    convert_token_to_node 20 (Node.Number 2) (Token.Caret, "3^2".toList)
      = ((Token.Caret, ['2']),
          .ok (Node.Caret (Node.Number 2) (Node.Number 3)))
    ∧ BinWrap (Node.Number 2) (Node.Caret (Node.Number 2) (Node.Number 3)) :=
  ⟨by with_unfolding_all rfl,
   c3_theorem.1 20 (Node.Number 2) (Token.Caret, "3^2".toList)
      (Token.Caret, ['2']) (Node.Caret (Node.Number 2) (Node.Number 3))
      (by with_unfolding_all rfl)⟩

/-- C4: a leading `-` is parsed at `Negative` precedence, which ranks
above every binary operator's precedence, and unary negation chains:
`--3` parses as `Negative(Negative(Number 3))` and evaluates to `3.0`,
and `-5--10` evaluates to `5.0`. -/
theorem c4_theorem :
    ([Token.Add, Token.Subtract, Token.Multiply, Token.Divide, Token.Caret,
        Token.And, Token.Or].all
      (fun t => precLt t.get_oper_prec OperPrec.Negative)) = true
    ∧ parseFull "--3" =
        .ok (.Negative (.Negative (.Number 3)), (Token.EOF, []))
    ∧ evalStr "--3" = .ok (.finite 3)
    ∧ evalStr "-5--10" = .ok (.finite 5) := by
  refine ⟨?_, ?_, ?_, ?_⟩ <;> with_unfolding_all rfl
